import Mathlib

/-!
Verification of the sword-converter query tool (`query.py`) against its
specification.  The program is embedded shallowly: strings are `List Char`,
verse records are a structure, the regex-based key parser is implemented with
the exact leftmost-greedy backtracking semantics of `re.match` on the three
concrete patterns the program uses, and the Click command handlers become
pure functions returning `Except`.
-/

namespace SwordQuery

/-- Characters of a string literal, used to write concrete inputs. -/
def str (s : String) : List Char := s.data

/-- One verse record, the only domain entity: book, chapter, verse, text.
In the JSON file each record is an object with these fields; in the SQLite
database it is a row of the `verses` relation.  Chapter and verse are
modelled as naturals (the producer formats in scope store them numerically). -/
structure Verse where
  book : List Char
  chapter : Nat
  verse : Nat
  text : List Char
deriving DecidableEq

/-- `TERM.red` of the blessings terminal: the ANSI red escape emitted on a
color terminal. -/
def TERM_RED : List Char := ['\x1b', '[', '3', '1', 'm']

/-- `TERM.normal` of the blessings terminal: the ANSI attribute reset. -/
def TERM_NORMAL : List Char := ['\x1b', '[', 'm']

/-- Escape prepended by `click.secho(..., bold=True)`. -/
def BOLD_ON : List Char := ['\x1b', '[', '1', 'm']

/-- Escape appended by `click.secho(..., bold=True)`. -/
def BOLD_OFF : List Char := ['\x1b', '[', '0', 'm']

/-- Python `int()` on a string of decimal digits. -/
def natOfDigits (ds : List Char) : Nat := ds.foldl (fun a c => 10 * a + (c.toNat - 48)) 0

/-! ### Key parser

`split_key` tries, in order, the three anchored patterns
`([^:]+) +(\d+):(\d+)`, `([^:]+) +(\d+)` and `([^:]+)` with `re.match`.
Each is embedded with Python's backtracking semantics: the first group
`[^:]+` is greedy, so the engine commits to the longest colon-free prefix
from which the remainder of the pattern still matches; ` +`, `\d+` followed
by a character that cannot extend them never backtrack into a shorter run,
so they are maximal runs.  `re.match` anchors only at the start: trailing
unmatched input is allowed. -/

/-- Attempt to finish the pattern `([^:]+) +(\d+):(\d+)` when group 1 has
consumed `acc` (reversed): the rest must start with a maximal nonempty run
of spaces, then a maximal nonempty digit run, a colon, and a nonempty digit
run.  Returns the groups (book, chapter, verse) on success. -/
def completeBCV (acc rest : List Char) : Option (List Char × Nat × Nat) :=
  if acc = [] then none
  else
    let sp := rest.takeWhile (fun c => c == ' ')
    let r1 := rest.dropWhile (fun c => c == ' ')
    if sp = [] then none
    else
      let ds := r1.takeWhile Char.isDigit
      let r2 := r1.dropWhile Char.isDigit
      if ds = [] then none
      else
        match r2 with
        | ':' :: r3 =>
          let vs := r3.takeWhile Char.isDigit
          if vs = [] then none else some (acc.reverse, natOfDigits ds, natOfDigits vs)
        | _ => none

/-- Greedy matcher for `([^:]+) +(\d+):(\d+)`: extend group 1 as far as
possible (any non-colon character) and prefer the deepest completion,
falling back to completing at the current split, exactly as the regex
engine backtracks. -/
def goBCV : List Char → List Char → Option (List Char × Nat × Nat)
  | acc, [] => completeBCV acc []
  | acc, c :: rest =>
    if c = ':' then completeBCV acc (c :: rest)
    else
      match goBCV (c :: acc) rest with
      | some r => some r
      | none => completeBCV acc (c :: rest)

/-- `re.match` of `KEY_BOOK_CHAPTER_VERSE_REGEXP = ([^:]+) +(\d+):(\d+)`. -/
def matchBCV (s : List Char) : Option (List Char × Nat × Nat) := goBCV [] s

/-- Attempt to finish the pattern `([^:]+) +(\d+)` when group 1 has consumed
`acc` (reversed). -/
def completeBC (acc rest : List Char) : Option (List Char × Nat) :=
  if acc = [] then none
  else
    let sp := rest.takeWhile (fun c => c == ' ')
    let r1 := rest.dropWhile (fun c => c == ' ')
    if sp = [] then none
    else
      let ds := r1.takeWhile Char.isDigit
      if ds = [] then none
      else some (acc.reverse, natOfDigits ds)

/-- Greedy matcher for `([^:]+) +(\d+)`. -/
def goBC : List Char → List Char → Option (List Char × Nat)
  | acc, [] => completeBC acc []
  | acc, c :: rest =>
    if c = ':' then completeBC acc (c :: rest)
    else
      match goBC (c :: acc) rest with
      | some r => some r
      | none => completeBC acc (c :: rest)

/-- `re.match` of `KEY_BOOK_CHAPTER_REGEXP = ([^:]+) +(\d+)`. -/
def matchBC (s : List Char) : Option (List Char × Nat) := goBC [] s

/-- `re.match` of `KEY_BOOK_REGEXP = ([^:]+)`: the maximal nonempty
colon-free prefix. -/
def matchBOOK (s : List Char) : Option (List Char) :=
  let b := s.takeWhile (fun c => !(c == ':'))
  if b = [] then none else some b

/-- `split_key` from `query.py`: ordered fallback over the three patterns,
first match wins; chapter and verse are converted with `int()`.  Returns
`none` when no pattern matches (the Python function falls off the end and
returns `None`). -/
def split_key (key : List Char) : Option (List Char × Option Nat × Option Nat) :=
  match matchBCV key with
  | some (b, c, v) => some (b, some c, some v)
  | none =>
    match matchBC key with
    | some (b, c) => some (b, some c, none)
    | none =>
      match matchBOOK key with
      | some b => some (b, none, none)
      | none => none

example : str "ab" = ['a', 'b'] := by decide
example : split_key (str "Genesis 1:1") = some (str "Genesis", some 1, some 1) := by decide
example : split_key (str "1 John 3:16") = some (str "1 John", some 3, some 16) := by decide
example : split_key (str "Book  3:4") = some (str "Book ", some 3, some 4) := by decide
example : split_key (str "a:b") = some (str "a", none, none) := by decide
example : split_key (str ":x") = none := by decide
example : split_key (str "John 3") = some (str "John", some 3, none) := by decide

/-! ### Backend adapters

The JSON file and the SQLite `verses` relation are both abstracted to the
`List Verse` they contain; file and connection I/O is outside the embedding.
A backend call that would raise an uncaught Python exception is `none`. -/

/-- Python truthiness of the optional chapter/verse integers: `None` and
`0` are falsy. -/
def truthy : Option Nat → Bool
  | none => false
  | some n => !(n == 0)

/-- Equality test of a record field against the parsed key component, as
Python `==` / SQL `=` behaves there: comparing with `None`/`NULL` never
succeeds. -/
def optEq (n : Nat) (o : Option Nat) : Bool :=
  match o with
  | some m => n == m
  | none => false

/-- `lookup_json` from `query.py`: parse the key, then filter the loaded
records by book, and by chapter/verse when those are truthy.  `none` models
the `TypeError` raised when `split_key` returns `None` and the tuple
unpacking fails. -/
def lookup_json (verses : List Verse) (key : List Char) : Option (List Verse) :=
  match split_key key with
  | none => none
  | some (book, chapter, verse) =>
    some (if truthy verse then
            verses.filter (fun v => v.book == book && optEq v.chapter chapter && optEq v.verse verse)
          else if truthy chapter then
            verses.filter (fun v => v.book == book && optEq v.chapter chapter)
          else
            verses.filter (fun v => v.book == book))

/-- `lookup_sqlite` from `query.py`: the three progressively scoped
`SELECT` statements over the `verses` relation become equality filters on
the table contents.  The final guard mirrors `elif book:`; when no branch
executes, `fetchall` on an unused cursor raises, modelled as `none`. -/
def lookup_sqlite (table : List Verse) (key : List Char) : Option (List Verse) :=
  match split_key key with
  | none => none
  | some (book, chapter, verse) =>
    if truthy verse then
      some (table.filter (fun v => v.book == book && optEq v.chapter chapter && optEq v.verse verse))
    else if truthy chapter then
      some (table.filter (fun v => v.book == book && optEq v.chapter chapter))
    else if book ≠ [] then
      some (table.filter (fun v => v.book == book))
    else none

/-- Whitespace class of Python `str.split()` with no argument. -/
def pyIsSpace (c : Char) : Bool :=
  c == ' ' || c == '\t' || c == '\n' || c == '\x0d' || c == '\x0b' || c == '\x0c'

/-- Fuel-driven worker for `pySplit`; the fuel starts at the length of the
list and every step consumes at least one character. -/
def pySplitAux : Nat → List Char → List (List Char)
  | 0, _ => []
  | _ + 1, [] => []
  | fuel + 1, c :: rest =>
    if pyIsSpace c then pySplitAux fuel rest
    else (c :: rest.takeWhile (fun ch => !pyIsSpace ch))
         :: pySplitAux fuel (rest.dropWhile (fun ch => !pyIsSpace ch))

/-- Python `str.split()` with no argument: split on runs of whitespace,
producing no empty tokens. -/
def pySplit (s : List Char) : List (List Char) := pySplitAux s.length s

/-- Python's `in` on strings: `pat` occurs as a contiguous substring. -/
def containsSub (pat : List Char) : List Char → Bool
  | [] => pat.isEmpty
  | c :: rest => pat.isPrefixOf (c :: rest) || containsSub pat rest

/-- A record matches a token list when every token is a substring of its
text (the inner `for key in query` loop of `search_json`). -/
def verseMatches (tokens : List (List Char)) (v : Verse) : Bool :=
  tokens.all (fun t => containsSub t v.text)

/-- `search_json` from `query.py`: split the query on whitespace and keep
the records whose text contains every token. -/
def search_json (verses : List Verse) (query : List Char) : List Verse :=
  verses.filter (verseMatches (pySplit query))

/-! ### Keyword filter

`filter_keywords` first builds a Python `set` of the keywords.  A CPython
`set` of strings iterates in an order determined by the (per-process
randomized) string hashes, not by insertion; the embedding therefore takes
the set construction as a parameter `pset` constrained only to return the
distinct elements in some order (`PySet`). -/

/-- Reserved SQLite FTS operators dropped by `filter_keywords`. -/
def FTS_OPERATORS : List (List Char) := [str "AND", str "OR", str "NOT"]

/-- Python `word.startswith("-")`. -/
def startsDash : List Char → Bool
  | '-' :: _ => true
  | _ => false

/-- What `set()` construction guarantees about the modelled enumeration:
the result lists each distinct element exactly once, in some order. -/
def PySet (pset : List (List Char) → List (List Char)) : Prop :=
  ∀ ks, (pset ks).Nodup ∧ ∀ w, w ∈ pset ks ↔ w ∈ ks

/-- `filter_keywords` from `query.py`: `set(keywords)`, set-difference with
the FTS operators, then a comprehension dropping words starting with `-`.
The set-difference and comprehension keep the enumeration order of the set,
so the result is the parameterised enumeration filtered by both rules. -/
def filter_keywords (pset : List (List Char) → List (List Char))
    (keywords : List (List Char)) : List (List Char) :=
  ((pset keywords).filter (fun w => !(FTS_OPERATORS.contains w))).filter
    (fun w => !startsDash w)

example : filter_keywords List.dedup [str "AND", str "light", str "-x", str "light"] = [str "light"] := by decide

/-! ### Renderer

`colorize_matches` hands each keyword to `re.sub` as a regular-expression
PATTERN, not as a literal string.  A keyword free of regex metacharacters
matches literally; a keyword containing metacharacters is interpreted by
the regex engine and may not even compile — `re.sub("(", ...)` raises
`re.error`, an exception the program does not catch.  The embedding
implements the literal case exactly (`reSubN`) and takes the engine's
behaviour as a parameter `reSub`, constrained by `ReSubSpec` to agree with
CPython on literal patterns and on the malformed pattern `"("`. -/

instance {ε α : Type} [DecidableEq ε] [DecidableEq α] : DecidableEq (Except ε α) := fun x y =>
  match x, y with
  | .ok a, .ok b =>
    if h : a = b then isTrue (by rw [h]) else isFalse (by intro he; cases he; exact h rfl)
  | .error a, .error b =>
    if h : a = b then isTrue (by rw [h]) else isFalse (by intro he; cases he; exact h rfl)
  | .ok _, .error _ => isFalse (by intro he; cases he)
  | .error _, .ok _ => isFalse (by intro he; cases he)

/-- Index of the first occurrence of `pat` in `s`, if any (the position at
which `re.sub` finds its next match for a pattern that matches literally). -/
def findOcc (pat : List Char) : List Char → Option Nat
  | [] => if pat = [] then some 0 else none
  | c :: rest =>
    if pat.isPrefixOf (c :: rest) then some 0
    else (findOcc pat rest).map (· + 1)

/-- `re.sub(pat, TERM.red + "\g<0>" + TERM.normal, s, cnt)` for a pattern
`pat` free of regex metacharacters, which therefore matches literally:
replace the `cnt` leftmost non-overlapping occurrences, leaving the rest of
the string unchanged. -/
def reSubN (pat : List Char) : Nat → List Char → List Char
  | 0, s => s
  | cnt + 1, s =>
    match findOcc pat s with
    | none => s
    | some i => s.take i ++ TERM_RED ++ pat ++ TERM_NORMAL
                ++ reSubN pat cnt (s.drop (i + pat.length))

/-- The characters with special meaning in a Python regular expression. -/
def RE_METACHARS : List Char :=
  ['.', '^', '$', '*', '+', '?', '\x7b', '\x7d', '[', ']', '\\', '|', '(', ')']

/-- A keyword all of whose characters are ordinary, so that `re.sub` treats
it as a literal string.  CLI keywords are arbitrary: nothing prevents a
user from searching for `"("` or `"God."`. -/
def isRegexLiteral (pat : List Char) : Bool :=
  pat.all (fun c => !(RE_METACHARS.contains c))

/-- What the theorems rely on about the regex engine
(`reSub pattern count string`, `.error` = `re.error`): a metacharacter-free
pattern substitutes literally and cannot fail, and the malformed pattern
`"("` (unterminated group) always raises `re.error` when compiled.  The
behaviour on other metacharacter patterns is the engine's and is left
unconstrained. -/
def ReSubSpec (reSub : List Char → Nat → List Char → Except Unit (List Char)) : Prop :=
  (∀ pat cnt s, isRegexLiteral pat = true → reSub pat cnt s = .ok (reSubN pat cnt s))
  ∧ (∀ cnt s, reSub ['('] cnt s = .error ())

/-- A concrete engine satisfying `ReSubSpec`, used to evaluate concrete
runs: literal patterns substitute, any metacharacter pattern raises.  (Only
the two clauses of `ReSubSpec` are relied on in general theorems.) -/
def reSubDefault (pat : List Char) (cnt : Nat) (s : List Char) :
    Except Unit (List Char) :=
  if isRegexLiteral pat then .ok (reSubN pat cnt s) else .error ()

/-- `colorize_matches` from `query.py`.  Two consequences of the line
`s = re.sub(keyword, COLORIZE_REPLACEMENT, s, re.IGNORECASE)`: the keyword
is a regex pattern, so a keyword the engine rejects raises `re.error`
(propagated here as `.error`); and `re.IGNORECASE` (numeric value 2) lands
in the positional `count` argument rather than `flags`, so matching is
case-sensitive and stops after two replacements per keyword. -/
def colorize_matches (reSub : List Char → Nat → List Char → Except Unit (List Char))
    (s : List Char) : List (List Char) → Except Unit (List Char)
  | [] => .ok s
  | kw :: rest =>
    match reSub kw 2 s with
    | .error e => .error e
    | .ok s2 => colorize_matches reSub s2 rest

example : colorize_matches reSubDefault (str "dog dog dog") [str "dog"] =
    .ok (TERM_RED ++ str "dog" ++ TERM_NORMAL ++ str " " ++ TERM_RED ++ str "dog"
      ++ TERM_NORMAL ++ str " dog") := by decide

example : colorize_matches reSubDefault (str "f(x") [str "("] = .error () := by decide

/-- The bold `book chapter:verse: ` prefix of an output line. -/
def linePrefix (v : Verse) : List Char :=
  BOLD_ON ++ v.book ++ [' '] ++ str (Nat.repr v.chapter) ++ [':']
    ++ str (Nat.repr v.verse) ++ [':', ' '] ++ BOLD_OFF

/-- One output line of `render_plain`: the bold prefix followed by the
(possibly highlighted) text; a keyword the regex engine rejects raises out
of the highlighting call. -/
def renderLine (reSub : List Char → Nat → List Char → Except Unit (List Char))
    (kws : List (List Char)) (v : Verse) : Except Unit (List Char) :=
  if kws ≠ [] then
    match colorize_matches reSub v.text kws with
    | .error e => .error e
    | .ok text => .ok (linePrefix v ++ text)
  else .ok (linePrefix v ++ v.text)

/-- The `for row in rows` loop of `render_plain`: it stops at the first row
whose highlighting raises.  (Lines printed before the raise have already
reached stdout; the embedding does not track that partial output, only
success and failure.) -/
def renderRows (reSub : List Char → Nat → List Char → Except Unit (List Char))
    (kws : List (List Char)) : List Verse → Except Unit (List (List Char))
  | [] => .ok []
  | v :: rest =>
    match renderLine reSub kws v with
    | .error e => .error e
    | .ok line =>
      match renderRows reSub kws rest with
      | .error e => .error e
      | .ok lines => .ok (line :: lines)

/-- `render_plain` from `query.py`: filter the keywords (when a non-empty
list was given), then emit one line per record with the keywords
highlighted; a surviving keyword the regex engine rejects raises
`re.error`. -/
def render_plain (pset : List (List Char) → List (List Char))
    (reSub : List Char → Nat → List Char → Except Unit (List Char))
    (rows : List Verse) (keywords : List (List Char)) :
    Except Unit (List (List Char)) :=
  let kws := if keywords ≠ [] then filter_keywords pset keywords else keywords
  renderRows reSub kws rows

/-! ### Command dispatcher -/

/-- Outcome of rendering per `--output`: `plain` lines, the `json` record
array, or nothing at all (any other `--output` value renders nothing). -/
inductive Rendered where
  | plainLines (lines : List (List Char)) : Rendered
  | jsonRows (rows : List Verse) : Rendered
  | silent : Rendered
deriving DecidableEq

/-- How a command terminates abnormally: a Click `UsageError` (user-facing
message, exit status 2), or one of the uncaught Python exceptions (exit
status 1): the `TypeError` from unpacking a failed `split_key`, the
`NameError` (`UnboundLocalError`) from reading `result` when no backend
branch assigned it, or the `re.error` raised when a highlight keyword is a
malformed regex pattern. -/
inductive CmdError where
  | usage (msg : List Char) : CmdError
  | typeError : CmdError
  | nameError : CmdError
  | reError : CmdError
deriving DecidableEq

/-- Python `filename.endswith(suffix)`. -/
def endsWithL (suffix s : List Char) : Bool := suffix.isSuffixOf s

/-- Render `rows` according to the `--output` option value; only plain
rendering with keywords can raise (`re.error`). -/
def renderOut (pset : List (List Char) → List (List Char))
    (reSub : List Char → Nat → List Char → Except Unit (List Char))
    (output : List Char) (rows : List Verse) (kws : List (List Char)) :
    Except Unit Rendered :=
  if output = str "plain" then
    match render_plain pset reSub rows kws with
    | .error e => .error e
    | .ok lines => .ok (.plainLines lines)
  else if output = str "json" then .ok (.jsonRows rows)
  else .ok .silent

/-- Backend selection in the `lookup` command: `result` is assigned from
`lookup_json` when the filename ends in `json`, from `lookup_sqlite` when it
ends in `sqlite`, and is otherwise never assigned (`none`). -/
def selectedLookup (src : List Verse) (filename key : List Char) :
    Option (Option (List Verse)) :=
  if endsWithL (str "json") filename then some (lookup_json src key)
  else if endsWithL (str "sqlite") filename then some (lookup_sqlite src key)
  else none

/-- The `lookup` command body after argument parsing: run the selected
backend, then either render the non-empty result or raise
`UsageError("<key> not found")`; an unselected backend leaves `result`
unbound and the `if result:` line raises `NameError`.  `render_plain` is
called with no keywords here, so the regex engine is never consulted and
the concrete `reSubDefault` stands in for it. -/
def lookup_cmd (src : List Verse) (filename key output : List Char) :
    Except CmdError Rendered :=
  match selectedLookup src filename key with
  | none => .error .nameError
  | some none => .error .typeError
  | some (some res) =>
    if res ≠ [] then
      match renderOut (fun ks => ks) reSubDefault output res [] with
      | .error _ => .error .reError
      | .ok r => .ok r
    else .error (.usage (key ++ str " not found"))

/-- Backend selection in the `search` command.  The SQLite full-text
`MATCH` is implemented by the database engine, outside this repository; it
enters the embedding as the parameter `fts`. -/
def selectedSearch (fts : List Verse → List Char → List Verse)
    (src : List Verse) (filename query : List Char) : Option (List Verse) :=
  if endsWithL (str "json") filename then some (search_json src query)
  else if endsWithL (str "sqlite") filename then some (fts src query)
  else none

/-- `" ".join(keywords)`: the CLI keyword arguments joined into the query
string. -/
def joinQuery (kwArgs : List (List Char)) : List Char :=
  List.intercalate [' '] kwArgs

/-- The `search` command body after argument parsing: join the keyword
arguments, filter a keyword list for highlighting, run the selected
backend, then render or raise `UsageError("No matches found for: <query>")`.
A surviving keyword that is a malformed regex pattern makes plain rendering
raise an uncaught `re.error`. -/
def search_cmd (pset : List (List Char) → List (List Char))
    (reSub : List Char → Nat → List Char → Except Unit (List Char))
    (fts : List Verse → List Char → List Verse)
    (src : List Verse) (filename : List Char) (kwArgs : List (List Char))
    (output : List Char) : Except CmdError Rendered :=
  let query := joinQuery kwArgs
  let kws := filter_keywords pset (pySplit query)
  match selectedSearch fts src filename query with
  | none => .error .nameError
  | some res =>
    if res ≠ [] then
      match renderOut pset reSub output res kws with
      | .error _ => .error .reError
      | .ok r => .ok r
    else .error (.usage (str "No matches found for: " ++ query))

/-- Process exit status: 0 on success, 2 for a Click `UsageError`, 1 for an
uncaught Python exception. -/
def exitCode : Except CmdError Rendered → Nat
  | .ok _ => 0
  | .error (.usage _) => 2
  | .error _ => 1

example : lookup_cmd [⟨str "Genesis", 1, 1, str "In the beginning"⟩]
    (str "verses.json") (str "Genesis 1:1") (str "plain") =
    .ok (.plainLines [BOLD_ON ++ str "Genesis 1:1: " ++ BOLD_OFF ++ str "In the beginning"]) := by
  decide

example : lookup_cmd [⟨str "Genesis", 1, 1, str "In the beginning"⟩]
    (str "verses.json") (str "Exodus 1:1") (str "plain") =
    .error (.usage (str "Exodus 1:1 not found")) := by decide

/-! ### Lemmas about the key parser -/

lemma ne_space_of_isDigit {c : Char} (h : c.isDigit = true) : c ≠ ' ' := by
  rintro rfl; exact absurd h (by decide)

lemma ne_colon_of_isDigit {c : Char} (h : c.isDigit = true) : c ≠ ':' := by
  rintro rfl; exact absurd h (by decide)

lemma completeBCV_none_of_no_space (acc : List Char) {rest : List Char}
    (h : rest.takeWhile (fun c => c == ' ') = []) : completeBCV acc rest = none := by
  unfold completeBCV
  by_cases ha : acc = [] <;> simp [ha, h]

lemma goBCV_none_of_no_space :
    ∀ (rest acc : List Char), (∀ c ∈ rest, c ≠ ' ') → goBCV acc rest = none := by
  intro rest
  induction rest with
  | nil => intro acc _; exact completeBCV_none_of_no_space acc rfl
  | cons c t ih =>
    intro acc h
    have hc : (c == ' ') = false := by
      simpa using h c (List.mem_cons_self c t)
    have hcomp : completeBCV acc (c :: t) = none :=
      completeBCV_none_of_no_space acc (by simp [List.takeWhile_cons, hc])
    unfold goBCV
    by_cases hcol : c = ':'
    · subst hcol; simpa using hcomp
    · simp only [hcol, if_false]
      rw [ih (c :: acc) (fun x hx => h x (List.mem_cons_of_mem c hx))]
      exact hcomp

lemma completeBCV_none_of_no_colon (acc : List Char) {rest : List Char}
    (h : ∀ c ∈ rest, c ≠ ':') : completeBCV acc rest = none := by
  have hsuf : (rest.dropWhile (fun c => c == ' ')).dropWhile Char.isDigit <:+ rest :=
    (List.dropWhile_suffix Char.isDigit).trans (List.dropWhile_suffix _)
  unfold completeBCV
  split
  · rfl
  dsimp only
  split
  · rfl
  split
  · rfl
  split
  next r3 heq =>
    exfalso
    exact h ':' (hsuf.subset (heq ▸ List.mem_cons_self ':' r3)) rfl
  next => rfl

lemma goBCV_none_of_no_colon :
    ∀ (rest acc : List Char), (∀ c ∈ rest, c ≠ ':') → goBCV acc rest = none := by
  intro rest
  induction rest with
  | nil => intro acc h; exact completeBCV_none_of_no_colon acc h
  | cons c t ih =>
    intro acc h
    have hcomp : completeBCV acc (c :: t) = none := completeBCV_none_of_no_colon acc h
    unfold goBCV
    have hc : c ≠ ':' := h c (List.mem_cons_self c t)
    simp only [hc, if_false]
    rw [ih (c :: acc) (fun x hx => h x (List.mem_cons_of_mem c hx))]
    exact hcomp

lemma goBCV_main :
    ∀ (bk2 acc cs vs : List Char), (∀ c ∈ bk2, c ≠ ':') → acc.reverse ++ bk2 ≠ [] →
      cs ≠ [] → (∀ c ∈ cs, c.isDigit = true) → vs ≠ [] → (∀ c ∈ vs, c.isDigit = true) →
      goBCV acc (bk2 ++ ' ' :: (cs ++ ':' :: vs)) =
        some (acc.reverse ++ bk2, natOfDigits cs, natOfDigits vs) := by
  intro bk2
  induction bk2 with
  | nil =>
    intro acc cs vs _ hne hcs hcsd hvs hvsd
    have hnosp : ∀ c ∈ cs ++ ':' :: vs, c ≠ ' ' := by
      intro c hc
      rcases List.mem_append.mp hc with hc | hc
      · exact ne_space_of_isDigit (hcsd c hc)
      · rcases List.mem_cons.mp hc with rfl | hc
        · decide
        · exact ne_space_of_isDigit (hvsd c hc)
    have hacc : acc ≠ [] := by simpa using hne
    have h0t : (cs ++ ':' :: vs).takeWhile (fun c => c == ' ') = [] := by
      cases cs with
      | nil => simp [List.takeWhile_cons]
      | cons d cs2 =>
        have : (d == ' ') = false := by
          simpa using ne_space_of_isDigit (hcsd d (List.mem_cons_self d cs2))
        simp [List.takeWhile_cons, this]
    have h0d : (cs ++ ':' :: vs).dropWhile (fun c => c == ' ') = cs ++ ':' :: vs := by
      cases cs with
      | nil => simp [List.dropWhile_cons]
      | cons d cs2 =>
        have : (d == ' ') = false := by
          simpa using ne_space_of_isDigit (hcsd d (List.mem_cons_self d cs2))
        simp [List.dropWhile_cons, this]
    have h1 : (' ' :: (cs ++ ':' :: vs)).takeWhile (fun c => c == ' ') = [' '] := by
      simp [List.takeWhile_cons, h0t]
    have h2 : (' ' :: (cs ++ ':' :: vs)).dropWhile (fun c => c == ' ') = cs ++ ':' :: vs := by
      simp [List.dropWhile_cons, h0d]
    have h3 : (cs ++ ':' :: vs).takeWhile Char.isDigit = cs := by
      rw [List.takeWhile_append_of_pos hcsd]
      simp [List.takeWhile_cons]
    have h4 : (cs ++ ':' :: vs).dropWhile Char.isDigit = ':' :: vs := by
      rw [List.dropWhile_append_of_pos hcsd]
      simp [List.dropWhile_cons]
    have h5 : vs.takeWhile Char.isDigit = vs := List.takeWhile_eq_self_iff.mpr hvsd
    simp only [List.nil_append]
    unfold goBCV
    simp only [show (' ' = ':') = False by simp, if_false]
    rw [goBCV_none_of_no_space _ (' ' :: acc) hnosp]
    unfold completeBCV
    rw [if_neg hacc]
    simp only [h1, h2, h3, h4, h5]
    simp [hvs, hcs]
  | cons x bk3 ih =>
    intro acc cs vs hbk hne hcs hcsd hvs hvsd
    have hx : x ≠ ':' := hbk x (List.mem_cons_self x bk3)
    have step := ih (x :: acc) cs vs (fun c hc => hbk c (List.mem_cons_of_mem x hc))
      (by simp) hcs hcsd hvs hvsd
    simp only [List.cons_append]
    unfold goBCV
    simp only [hx, if_false]
    rw [step]
    simp [List.reverse_cons, List.append_assoc]

lemma completeBC_none_of_no_space (acc : List Char) {rest : List Char}
    (h : rest.takeWhile (fun c => c == ' ') = []) : completeBC acc rest = none := by
  unfold completeBC
  by_cases ha : acc = [] <;> simp [ha, h]

lemma goBC_none_of_no_space :
    ∀ (rest acc : List Char), (∀ c ∈ rest, c ≠ ' ') → goBC acc rest = none := by
  intro rest
  induction rest with
  | nil => intro acc _; exact completeBC_none_of_no_space acc rfl
  | cons c t ih =>
    intro acc h
    have hc : (c == ' ') = false := by
      simpa using h c (List.mem_cons_self c t)
    have hcomp : completeBC acc (c :: t) = none :=
      completeBC_none_of_no_space acc (by simp [List.takeWhile_cons, hc])
    unfold goBC
    by_cases hcol : c = ':'
    · subst hcol; simpa using hcomp
    · simp only [hcol, if_false]
      rw [ih (c :: acc) (fun x hx => h x (List.mem_cons_of_mem c hx))]
      exact hcomp

lemma completeBC_none_of_no_digit (acc : List Char) {rest : List Char}
    (h : ∀ c ∈ rest, c.isDigit = false) : completeBC acc rest = none := by
  unfold completeBC
  by_cases ha : acc = []
  · simp [ha]
  · simp only [ha, if_false]
    have hds : (rest.dropWhile (fun c => c == ' ')).takeWhile Char.isDigit = [] := by
      cases hr1 : rest.dropWhile (fun c => c == ' ') with
      | nil => rfl
      | cons x r2 =>
        have hx : x.isDigit = false :=
          h x ((List.dropWhile_suffix _).subset (hr1 ▸ List.mem_cons_self x r2))
        simp [List.takeWhile_cons, hx]
    by_cases hsp : rest.takeWhile (fun c => c == ' ') = [] <;> simp [hsp, hds]

lemma goBC_none_of_no_digit :
    ∀ (rest acc : List Char), (∀ c ∈ rest, c.isDigit = false) → goBC acc rest = none := by
  intro rest
  induction rest with
  | nil => intro acc h; exact completeBC_none_of_no_digit acc h
  | cons c t ih =>
    intro acc h
    have hcomp : completeBC acc (c :: t) = none := completeBC_none_of_no_digit acc h
    unfold goBC
    by_cases hcol : c = ':'
    · subst hcol; simpa using hcomp
    · simp only [hcol, if_false]
      rw [ih (c :: acc) (fun x hx => h x (List.mem_cons_of_mem c hx))]
      exact hcomp

lemma goBC_main :
    ∀ (bk2 acc cs : List Char), (∀ c ∈ bk2, c ≠ ':') → acc.reverse ++ bk2 ≠ [] →
      cs ≠ [] → (∀ c ∈ cs, c.isDigit = true) →
      goBC acc (bk2 ++ ' ' :: cs) = some (acc.reverse ++ bk2, natOfDigits cs) := by
  intro bk2
  induction bk2 with
  | nil =>
    intro acc cs _ hne hcs hcsd
    have hnosp : ∀ c ∈ cs, c ≠ ' ' := fun c hc => ne_space_of_isDigit (hcsd c hc)
    have hacc : acc ≠ [] := by simpa using hne
    have h0t : cs.takeWhile (fun c => c == ' ') = [] := by
      cases cs with
      | nil => rfl
      | cons d cs2 =>
        have : (d == ' ') = false := by
          simpa using ne_space_of_isDigit (hcsd d (List.mem_cons_self d cs2))
        simp [List.takeWhile_cons, this]
    have h0d : cs.dropWhile (fun c => c == ' ') = cs := by
      cases cs with
      | nil => rfl
      | cons d cs2 =>
        have : (d == ' ') = false := by
          simpa using ne_space_of_isDigit (hcsd d (List.mem_cons_self d cs2))
        simp [List.dropWhile_cons, this]
    have h1 : (' ' :: cs).takeWhile (fun c => c == ' ') = [' '] := by
      simp [List.takeWhile_cons, h0t]
    have h2 : (' ' :: cs).dropWhile (fun c => c == ' ') = cs := by
      simp [List.dropWhile_cons, h0d]
    have h3 : cs.takeWhile Char.isDigit = cs := List.takeWhile_eq_self_iff.mpr hcsd
    simp only [List.nil_append]
    unfold goBC
    simp only [show (' ' = ':') = False by simp, if_false]
    rw [goBC_none_of_no_space _ (' ' :: acc) hnosp]
    unfold completeBC
    rw [if_neg hacc]
    simp only [h1, h2, h3]
    simp [hcs]
  | cons x bk3 ih =>
    intro acc cs hbk hne hcs hcsd
    have hx : x ≠ ':' := hbk x (List.mem_cons_self x bk3)
    have step := ih (x :: acc) cs (fun c hc => hbk c (List.mem_cons_of_mem x hc))
      (by simp) hcs hcsd
    simp only [List.cons_append]
    unfold goBC
    simp only [hx, if_false]
    rw [step]
    simp [List.reverse_cons, List.append_assoc]

/-- Claim C2, amended to the book group the greedy regex actually captures.
For a key `Book⎵C:V` the separator consumed by the pattern is the single
space immediately before the chapter digits, so `Book` is everything before
that last space (extra whitespace stays attached to the book); similarly
for `Book⎵C`; a key containing neither pattern parses as book-only with the
book being its maximal colon-free prefix. -/
theorem C2_split_key_amended (bk cs vs : List Char)
    (hbk : bk ≠ []) (hbkc : ∀ c ∈ bk, c ≠ ':')
    (hcs : cs ≠ []) (hcsd : ∀ c ∈ cs, c.isDigit = true)
    (hvs : vs ≠ []) (hvsd : ∀ c ∈ vs, c.isDigit = true) :
    split_key (bk ++ ' ' :: (cs ++ ':' :: vs)) =
      some (bk, some (natOfDigits cs), some (natOfDigits vs))
    ∧ split_key (bk ++ ' ' :: cs) = some (bk, some (natOfDigits cs), none)
    ∧ ∀ t, t ≠ [] → (∀ c ∈ t, c ≠ ':' ∧ c.isDigit = false) →
        split_key t = some (t, none, none) := by
  refine ⟨?_, ?_, ?_⟩
  · have h1 : matchBCV (bk ++ ' ' :: (cs ++ ':' :: vs)) =
        some (bk, natOfDigits cs, natOfDigits vs) := by
      have h := goBCV_main bk [] cs vs hbkc (by simpa using hbk) hcs hcsd hvs hvsd
      simpa [matchBCV] using h
    simp [split_key, h1]
  · have hnc : ∀ c ∈ bk ++ ' ' :: cs, c ≠ ':' := by
      intro c hcm
      rcases List.mem_append.mp hcm with hcm | hcm
      · exact hbkc c hcm
      · rcases List.mem_cons.mp hcm with rfl | hcm
        · decide
        · exact ne_colon_of_isDigit (hcsd c hcm)
    have h1 : matchBCV (bk ++ ' ' :: cs) = none :=
      goBCV_none_of_no_colon _ [] hnc
    have h2 : matchBC (bk ++ ' ' :: cs) = some (bk, natOfDigits cs) := by
      have h := goBC_main bk [] cs hbkc (by simpa using hbk) hcs hcsd
      simpa [matchBC] using h
    simp [split_key, h1, h2]
  · intro t ht htc
    have h1 : matchBCV t = none :=
      goBCV_none_of_no_colon t [] (fun c hc => (htc c hc).1)
    have h2 : matchBC t = none :=
      goBC_none_of_no_digit t [] (fun c hc => (htc c hc).2)
    have h3 : matchBOOK t = some t := by
      have : t.takeWhile (fun c => !(c == ':')) = t :=
        List.takeWhile_eq_self_iff.mpr (fun c hc => by simpa using (htc c hc).1)
      simp [matchBOOK, this, ht]
    simp [split_key, h1, h2, h3]

/-- Witness for C2: the three shapes at concrete keys. -/
theorem C2_split_key_amended_witness :
    split_key (str "Genesis 1:1") = some (str "Genesis", some 1, some 1)
    ∧ split_key (str "Genesis 1") = some (str "Genesis", some 1, none)
    ∧ split_key (str "Exodus") = some (str "Exodus", none, none) := by
  have h := C2_split_key_amended (str "Genesis") (str "1") (str "1")
    (by decide) (by decide) (by decide) (by decide) (by decide) (by decide)
  exact ⟨h.1, h.2.1, h.2.2 (str "Exodus") (by decide) (by decide)⟩

/-- Counterexample to C2 as stated: for `"Book  3:4"` the book is not
everything before the last whitespace run (the code keeps the run's extra
spaces in the book: `"Book "`), and for the colon-containing key `"a:b"`
the book is not the whole string but only its colon-free prefix `"a"`. -/
theorem C2_split_key_counterexample :
    split_key (str "Book  3:4") = some (str "Book ", some 3, some 4)
    ∧ str "Book " ≠ str "Book"
    ∧ split_key (str "a:b") = some (str "a", none, none)
    ∧ str "a" ≠ str "a:b" := by decide

/-- Claim C8, amended: `split_key` produces no parse exactly for the empty
input and for inputs whose first character is a colon; every other input
parses. -/
theorem C8_split_key_none_iff (s : List Char) :
    split_key s = none ↔ s = [] ∨ s.head? = some ':' := by
  constructor
  · intro hnone
    cases s with
    | nil => exact Or.inl rfl
    | cons c t =>
      by_cases hc : c = ':'
      · exact Or.inr (by simp [hc])
      · exfalso
        have hbook : matchBOOK (c :: t) =
            some (c :: t.takeWhile (fun x => !(x == ':'))) := by
          simp [matchBOOK, List.takeWhile_cons, hc]
        unfold split_key at hnone
        cases hbcv : matchBCV (c :: t) with
        | some r =>
          rw [hbcv] at hnone
          obtain ⟨b, cc, vv⟩ := r
          simp at hnone
        | none =>
          rw [hbcv] at hnone
          cases hbc : matchBC (c :: t) with
          | some r =>
            rw [hbc] at hnone
            obtain ⟨b, cc⟩ := r
            simp at hnone
          | none =>
            rw [hbc, hbook] at hnone
            simp at hnone
  · rintro (rfl | hh)
    · rfl
    · obtain ⟨t, rfl⟩ : ∃ t, s = ':' :: t := by
        cases s with
        | nil => simp at hh
        | cons c t =>
          simp only [List.head?_cons, Option.some_inj] at hh
          exact ⟨t, by rw [hh]⟩
      rfl

/-- Counterexample to C8 as stated: `":x"` is non-empty, yet `split_key`
reaches the no-match branch. -/
theorem C8_split_key_counterexample :
    split_key (str ":x") = none ∧ str ":x" ≠ [] := by decide

/-! ### Lemmas about the keyword filter -/

lemma pySet_dedup : PySet List.dedup :=
  fun ks => ⟨List.nodup_dedup ks, fun _ => List.mem_dedup⟩

lemma pySet_dedup_reverse : PySet (fun ks => (List.dedup ks).reverse) :=
  fun ks => ⟨List.nodup_reverse.mpr (List.nodup_dedup ks),
    fun w => by simp [List.mem_reverse, List.mem_dedup]⟩

lemma mem_filter_keywords (pset : List (List Char) → List (List Char))
    (hp : PySet pset) (l : List (List Char)) (w : List Char) :
    w ∈ filter_keywords pset l ↔
      w ∈ l ∧ w ∉ FTS_OPERATORS ∧ startsDash w = false := by
  simp only [filter_keywords, List.mem_filter, Bool.not_eq_true']
  rw [(hp l).2 w]
  constructor
  · rintro ⟨⟨hw, hop⟩, hd⟩
    refine ⟨hw, ?_, hd⟩
    intro hmem
    rw [List.contains_eq_any_beq] at hop
    simp [List.any_eq_true] at hop
    exact hop w hmem rfl
  · rintro ⟨hw, hop, hd⟩
    refine ⟨⟨hw, ?_⟩, hd⟩
    rw [List.contains_eq_any_beq]
    simp [List.any_eq_true]
    intro x hx hbeq
    exact hop (by rw [hbeq]; exact hx)

/-- Claim C3, amended: besides the operator tokens and `-`-prefixed tokens,
`filter_keywords` also collapses duplicate occurrences (it passes the
keywords through `set()`), so its output lists each surviving token exactly
once; membership is exactly the claimed condition, and re-filtering the
output changes its membership in nothing (idempotence up to the unspecified
set enumeration order). -/
theorem C3_filter_keywords_amended (pset : List (List Char) → List (List Char))
    (hp : PySet pset) (ks : List (List Char)) :
    (filter_keywords pset ks).Nodup
    ∧ (∀ w, w ∈ filter_keywords pset ks ↔
        w ∈ ks ∧ w ∉ FTS_OPERATORS ∧ startsDash w = false)
    ∧ (∀ w, w ∈ filter_keywords pset (filter_keywords pset ks) ↔
        w ∈ filter_keywords pset ks) := by
  refine ⟨((hp ks).1.filter _).filter _, mem_filter_keywords pset hp ks, ?_⟩
  intro w
  rw [mem_filter_keywords pset hp]
  constructor
  · exact fun h => h.1
  · intro h
    rcases (mem_filter_keywords pset hp ks w).mp h with ⟨_, hop, hd⟩
    exact ⟨h, hop, hd⟩

/-- Witness for C3 at a concrete keyword list. -/
theorem C3_filter_keywords_amended_witness :
    (filter_keywords List.dedup [str "AND", str "light", str "-x"]).Nodup
    ∧ str "light" ∈ filter_keywords List.dedup [str "AND", str "light", str "-x"]
    ∧ str "AND" ∉ filter_keywords List.dedup [str "AND", str "light", str "-x"] := by
  have h := C3_filter_keywords_amended List.dedup pySet_dedup
    [str "AND", str "light", str "-x"]
  refine ⟨h.1, (h.2.1 (str "light")).mpr (by decide), ?_⟩
  intro hmem
  exact absurd ((h.2.1 (str "AND")).mp hmem) (by decide)

/-- Counterexample to C3 as stated: with the duplicated input
`["light", "light"]` the token `"light"` is neither an operator nor
`-`-prefixed, yet one of its two occurrences is removed — the output is the
singleton `["light"]` (here under the `dedup` enumeration; any valid set
enumeration yields a one-element output). -/
theorem C3_filter_keywords_counterexample :
    PySet List.dedup
    ∧ filter_keywords List.dedup [str "light", str "light"] = [str "light"]
    ∧ str "light" ∉ FTS_OPERATORS
    ∧ startsDash (str "light") = false :=
  ⟨pySet_dedup, by decide, by decide, by decide⟩

/-- Claim C4: two enumerations that are both valid for a CPython `set`
(whose iteration order is determined by randomized string hashes, not by
insertion order) drive `filter_keywords` to outputs in different orders on
the same input, so the source does not guarantee that surviving tokens keep
their input order. -/
theorem C4_filter_keywords_order_unstable :
    PySet List.dedup
    ∧ PySet (fun ks => (List.dedup ks).reverse)
    ∧ filter_keywords List.dedup [str "beta", str "alpha"] =
        [str "beta", str "alpha"]
    ∧ filter_keywords (fun ks => (List.dedup ks).reverse) [str "beta", str "alpha"] =
        [str "alpha", str "beta"] :=
  ⟨pySet_dedup, pySet_dedup_reverse, by decide, by decide⟩

/-! ### Lemmas about lookup -/

lemma length_filter_le_one (verses : List Verse) (p : Verse → Bool)
    (bk : List Char) (c v : Nat)
    (hp : ∀ r, p r = true → r.book = bk ∧ r.chapter = c ∧ r.verse = v)
    (hu : verses.Pairwise
      (fun r1 r2 => ¬(r1.book = r2.book ∧ r1.chapter = r2.chapter ∧ r1.verse = r2.verse))) :
    (verses.filter p).length ≤ 1 := by
  induction verses with
  | nil => simp
  | cons a t ih =>
    rcases List.pairwise_cons.mp hu with ⟨ha, hut⟩
    by_cases hpa : p a = true
    · rw [List.filter_cons_of_pos hpa]
      have ht : t.filter p = [] := by
        rw [List.filter_eq_nil_iff]
        intro b hb hpb
        rcases hp a hpa with ⟨ha1, ha2, ha3⟩
        rcases hp b hpb with ⟨hb1, hb2, hb3⟩
        exact ha b hb ⟨ha1.trans hb1.symm, ha2.trans hb2.symm, ha3.trans hb3.symm⟩
      simp [ht]
    · rw [List.filter_cons_of_neg (by simpa using hpa)]
      exact ih hut

/-- Claim C5, amended: the guarantee holds for fully specified keys whose
verse is nonzero.  (Integer truthiness makes the code treat a parsed verse
of `0` as absent, degrading the lookup to chapter granularity.)  Both
backends return the same filtered sequence: every returned record matches
the key on book, chapter and verse, and under the source invariant that
(book, chapter, verse) is unique there is at most one such record. -/
theorem C5_lookup_amended (verses : List Verse) (key bk : List Char) (c v : Nat)
    (hk : split_key key = some (bk, some c, some v)) (hv : v ≠ 0)
    (hu : verses.Pairwise
      (fun r1 r2 => ¬(r1.book = r2.book ∧ r1.chapter = r2.chapter ∧ r1.verse = r2.verse))) :
    ∃ res, lookup_json verses key = some res ∧ lookup_sqlite verses key = some res
      ∧ res.length ≤ 1 ∧ ∀ r ∈ res, r.book = bk ∧ r.chapter = c ∧ r.verse = v := by
  have htr : truthy (some v) = true := by simp [truthy, hv]
  have hmatch : ∀ r : Verse,
      (r.book == bk && optEq r.chapter (some c) && optEq r.verse (some v)) = true →
      r.book = bk ∧ r.chapter = c ∧ r.verse = v := by
    intro r hr
    simp only [optEq, Bool.and_eq_true, beq_iff_eq] at hr
    exact ⟨hr.1.1, hr.1.2, hr.2⟩
  refine ⟨verses.filter
      (fun r => r.book == bk && optEq r.chapter (some c) && optEq r.verse (some v)),
    ?_, ?_, ?_, ?_⟩
  · simp [lookup_json, hk, htr]
  · simp [lookup_sqlite, hk, htr]
  · exact length_filter_le_one verses _ bk c v hmatch hu
  · intro r hr
    exact hmatch r (List.mem_filter.mp hr).2

/-- Witness for C5 at a concrete source and key. -/
theorem C5_lookup_amended_witness :
    ∃ res, lookup_json [⟨str "Genesis", 1, 1, str "In the beginning"⟩]
        (str "Genesis 1:1") = some res
      ∧ lookup_sqlite [⟨str "Genesis", 1, 1, str "In the beginning"⟩]
        (str "Genesis 1:1") = some res
      ∧ res.length ≤ 1
      ∧ ∀ r ∈ res, r.book = str "Genesis" ∧ r.chapter = 1 ∧ r.verse = 1 :=
  C5_lookup_amended [⟨str "Genesis", 1, 1, str "In the beginning"⟩]
    (str "Genesis 1:1") (str "Genesis") 1 1 (by decide) (by decide) (by simp)

/-- Counterexample to C5 as stated: the key `"B 1:0"` is fully specified
(book `"B"`, chapter 1, verse 0), yet the lookup returns a record whose
verse is 1, because `if verse:` treats the parsed verse `0` as absent and
filters only by book and chapter. -/
theorem C5_lookup_counterexample :
    split_key (str "B 1:0") = some (str "B", some 1, some 0)
    ∧ lookup_json [⟨str "B", 1, 1, str "t"⟩] (str "B 1:0") =
        some [⟨str "B", 1, 1, str "t"⟩]
    ∧ (⟨str "B", 1, 1, str "t"⟩ : Verse).verse ≠ 0 := by decide

/-! ### Lemmas about search -/

lemma containsSub_iff (pat : List Char) :
    ∀ s : List Char, containsSub pat s = true ↔ pat <:+: s := by
  intro s
  induction s with
  | nil =>
    simp [containsSub, List.isEmpty_iff, List.infix_nil]
  | cons c rest ih =>
    simp only [containsSub, Bool.or_eq_true, ih, List.isPrefixOf_iff_prefix]
    rw [ List.infix_cons_iff]

/-- Claim C6: `search_json` returns exactly the records (of the given
source, in order) whose text contains every whitespace-separated token of
the query as a contiguous substring; when no record satisfies that, it
returns the empty sequence. -/
theorem C6_search_json_and_semantics (verses : List Verse) (query : List Char) :
    (∀ r, r ∈ search_json verses query ↔
      r ∈ verses ∧ ∀ t ∈ pySplit query, t <:+: r.text)
    ∧ ((∀ r ∈ verses, ∃ t ∈ pySplit query, ¬ t <:+: r.text) →
        search_json verses query = []) := by
  have hmem : ∀ r, r ∈ search_json verses query ↔
      r ∈ verses ∧ ∀ t ∈ pySplit query, t <:+: r.text := by
    intro r
    simp only [search_json, List.mem_filter, verseMatches, List.all_eq_true, containsSub_iff]
  refine ⟨hmem, ?_⟩
  intro hno
  rw [search_json, List.filter_eq_nil_iff]
  intro a ha
  rcases hno a ha with ⟨t, ht, hnt⟩
  simp only [verseMatches, List.all_eq_true, containsSub_iff]
  push_neg
  exact ⟨t, ht, hnt⟩

/-- Witness for C6: a record is found exactly when all tokens occur. -/
theorem C6_search_json_and_semantics_witness :
    (⟨str "B", 1, 1, str "abc"⟩ : Verse) ∈
      search_json [⟨str "B", 1, 1, str "abc"⟩] (str "ab bc")
    ∧ search_json [⟨str "B", 1, 1, str "abc"⟩] (str "ab zz") = [] := by
  refine ⟨?_, ?_⟩
  · exact ((C6_search_json_and_semantics [⟨str "B", 1, 1, str "abc"⟩] (str "ab bc")).1
      ⟨str "B", 1, 1, str "abc"⟩).mpr (by decide)
  · exact (C6_search_json_and_semantics [⟨str "B", 1, 1, str "abc"⟩] (str "ab zz")).2
      (by decide)

lemma pySplitAux_nil_of_all_space :
    ∀ (fuel : Nat) (s : List Char), (∀ c ∈ s, pyIsSpace c = true) →
      pySplitAux fuel s = [] := by
  intro fuel
  induction fuel with
  | zero => intro s _; rfl
  | succ n ih =>
    intro s hs
    cases s with
    | nil => rfl
    | cons c t =>
      have hc : pyIsSpace c = true := hs c (List.mem_cons_self c t)
      simp [pySplitAux, hc, ih t (fun x hx => hs x (List.mem_cons_of_mem c hx))]

/-- Claim C10: a query that is empty or all whitespace splits into no
tokens, the all-tokens condition holds vacuously, and `search_json` returns
every record of the source. -/
theorem C10_search_json_empty_query (verses : List Verse) (query : List Char)
    (hq : ∀ c ∈ query, pyIsSpace c = true) :
    search_json verses query = verses := by
  have h : pySplit query = [] := pySplitAux_nil_of_all_space query.length query hq
  simp [search_json, h, verseMatches]

/-- Witness for C10: a two-space query returns the whole source. -/
theorem C10_search_json_empty_query_witness :
    search_json [⟨str "B", 1, 1, str "abc"⟩, ⟨str "C", 2, 3, str "xyz"⟩] (str "  ") =
      [⟨str "B", 1, 1, str "abc"⟩, ⟨str "C", 2, 3, str "xyz"⟩] :=
  C10_search_json_empty_query _ (str "  ") (by decide)

/-! ### Lemmas about rendering -/

lemma reSubSpec_default : ReSubSpec reSubDefault := by
  constructor
  · intro pat cnt s h
    simp [reSubDefault, h]
  · intro cnt s
    simp [reSubDefault, (by decide : isRegexLiteral ['('] = false)]

lemma colorize_matches_ok (reSub : List Char → Nat → List Char → Except Unit (List Char))
    (hspec : ReSubSpec reSub) :
    ∀ (kws : List (List Char)) (s : List Char),
      (∀ w ∈ kws, isRegexLiteral w = true) →
      ∃ t, colorize_matches reSub s kws = .ok t := by
  intro kws
  induction kws with
  | nil => intro s _; exact ⟨s, rfl⟩
  | cons kw rest ih =>
    intro s h
    have hk : isRegexLiteral kw = true := h kw (List.mem_cons_self kw rest)
    rcases ih (reSubN kw 2 s) (fun w hw => h w (List.mem_cons_of_mem kw hw)) with ⟨t, ht⟩
    exact ⟨t, by simp [colorize_matches, hspec.1 kw 2 s hk, ht]⟩

lemma renderLine_ok (reSub : List Char → Nat → List Char → Except Unit (List Char))
    (hspec : ReSubSpec reSub) (kws : List (List Char)) (v : Verse)
    (h : ∀ w ∈ kws, isRegexLiteral w = true) :
    ∃ t, renderLine reSub kws v = .ok t := by
  by_cases hk : kws = []
  · exact ⟨linePrefix v ++ v.text, by simp [renderLine, hk]⟩
  · rcases colorize_matches_ok reSub hspec kws v.text h with ⟨t, ht⟩
    exact ⟨linePrefix v ++ t, by simp [renderLine, hk, ht]⟩

lemma renderRows_ok (reSub : List Char → Nat → List Char → Except Unit (List Char))
    (hspec : ReSubSpec reSub) (kws : List (List Char))
    (h : ∀ w ∈ kws, isRegexLiteral w = true) :
    ∀ rows : List Verse, ∃ ls, renderRows reSub kws rows = .ok ls := by
  intro rows
  induction rows with
  | nil => exact ⟨[], rfl⟩
  | cons v rest ih =>
    rcases renderLine_ok reSub hspec kws v h with ⟨t, ht⟩
    rcases ih with ⟨ls, hls⟩
    exact ⟨t :: ls, by simp [renderRows, ht, hls]⟩

lemma renderOut_ok (pset : List (List Char) → List (List Char))
    (reSub : List Char → Nat → List Char → Except Unit (List Char))
    (hspec : ReSubSpec reSub) (out : List Char) (rows : List Verse)
    (kws : List (List Char))
    (h : ∀ w ∈ (if kws ≠ [] then filter_keywords pset kws else kws),
      isRegexLiteral w = true) :
    ∃ r, renderOut pset reSub out rows kws = .ok r := by
  by_cases ho : out = str "plain"
  · subst ho
    rcases renderRows_ok reSub hspec _ h rows with ⟨ls, hls⟩
    refine ⟨.plainLines ls, ?_⟩
    unfold renderOut render_plain
    rw [if_pos rfl]
    dsimp only
    rw [hls]
  · by_cases hj : out = str "json"
    · subst hj
      refine ⟨.jsonRows rows, ?_⟩
      unfold renderOut
      rw [if_neg (by decide), if_pos rfl]
    · refine ⟨.silent, ?_⟩
      unfold renderOut
      rw [if_neg ho, if_neg hj]

/-- Claim C1: evaluation of the highlighting code on a text with four
case-insensitive occurrences of the keyword `"light"` (a metacharacter-free
keyword, so every `ReSubSpec` engine computes this value; the default
engine is an instance of the spec).  Because `re.sub` receives
`re.IGNORECASE` (= 2) as its positional `count` argument rather than as
`flags`, the uppercase `"Light"` is not matched at all and only the first
two lowercase occurrences are wrapped; the third survives unmarked.  The
same happens inside `render_plain`. -/
theorem C1_colorize_matches_bug :
    ReSubSpec reSubDefault
    ∧ colorize_matches reSubDefault (str "Light light light light") [str "light"] =
      .ok (str "Light " ++ TERM_RED ++ str "light" ++ TERM_NORMAL ++ str " "
        ++ TERM_RED ++ str "light" ++ TERM_NORMAL ++ str " light")
    ∧ render_plain List.dedup reSubDefault
        [⟨str "B", 1, 1, str "Light light light light"⟩] [str "light"] =
      .ok [BOLD_ON ++ str "B 1:1: " ++ BOLD_OFF
        ++ (str "Light " ++ TERM_RED ++ str "light" ++ TERM_NORMAL ++ str " "
            ++ TERM_RED ++ str "light" ++ TERM_NORMAL ++ str " light")] :=
  ⟨reSubSpec_default, by decide, by decide⟩

/-! ### Dispatcher theorems -/

/-- Claim C7, amended: the empty-result half holds unconditionally for both
commands — a `UsageError` naming the unmatched key or query, exit status 2
(Click's non-zero usage-error status).  The non-empty half holds for every
lookup invocation, and for search invocations whose surviving highlight
keywords are all free of regex metacharacters: the result is rendered per
`--output` and the exit status is 0.  (A surviving keyword containing
metacharacters is handed to `re.sub` as a pattern during plain rendering
and a malformed one raises an uncaught `re.error`, exit status 1 — see the
counterexample.) -/
theorem C7_dispatcher_empty_vs_nonempty (src : List Verse)
    (fn key out : List Char) (kwArgs : List (List Char))
    (pset : List (List Char) → List (List Char))
    (reSub : List Char → Nat → List Char → Except Unit (List Char))
    (fts : List Verse → List Char → List Verse) (res res2 : List Verse)
    (hspec : ReSubSpec reSub) (hp : PySet pset) :
    (selectedLookup src fn key = some (some res) →
      (res = [] →
        lookup_cmd src fn key out = .error (.usage (key ++ str " not found"))
        ∧ exitCode (lookup_cmd src fn key out) = 2)
      ∧ (res ≠ [] → (out = str "plain" ∨ out = str "json") →
        ∃ r, renderOut (fun ks => ks) reSubDefault out res [] = .ok r
          ∧ lookup_cmd src fn key out = .ok r
          ∧ exitCode (lookup_cmd src fn key out) = 0))
    ∧ (selectedSearch fts src fn (joinQuery kwArgs) = some res2 →
      (res2 = [] →
        search_cmd pset reSub fts src fn kwArgs out =
          .error (.usage (str "No matches found for: " ++ joinQuery kwArgs))
        ∧ exitCode (search_cmd pset reSub fts src fn kwArgs out) = 2)
      ∧ (res2 ≠ [] → (out = str "plain" ∨ out = str "json") →
        (∀ w ∈ filter_keywords pset (pySplit (joinQuery kwArgs)),
          isRegexLiteral w = true) →
        ∃ r, renderOut pset reSub out res2
            (filter_keywords pset (pySplit (joinQuery kwArgs))) = .ok r
          ∧ search_cmd pset reSub fts src fn kwArgs out = .ok r
          ∧ exitCode (search_cmd pset reSub fts src fn kwArgs out) = 0)) := by
  constructor
  · intro hsel
    constructor
    · rintro rfl
      simp [lookup_cmd, hsel, exitCode]
    · intro hne _
      rcases renderOut_ok (fun ks => ks) reSubDefault reSubSpec_default out res []
        (by simp) with ⟨r, hr⟩
      exact ⟨r, hr, by simp [lookup_cmd, hsel, hne, hr],
        by simp [lookup_cmd, hsel, hne, hr, exitCode]⟩
  · intro hsel
    constructor
    · rintro rfl
      simp [search_cmd, hsel, exitCode]
    · intro hne _ hlit
      have h2 : ∀ w ∈ (if filter_keywords pset (pySplit (joinQuery kwArgs)) ≠ []
          then filter_keywords pset (filter_keywords pset (pySplit (joinQuery kwArgs)))
          else filter_keywords pset (pySplit (joinQuery kwArgs))),
          isRegexLiteral w = true := by
        by_cases hk : filter_keywords pset (pySplit (joinQuery kwArgs)) = []
        · simp [hk]
        · rw [if_pos hk]
          intro w hw
          exact hlit w ((mem_filter_keywords pset hp _ w).mp hw).1
      rcases renderOut_ok pset reSub hspec out res2
        (filter_keywords pset (pySplit (joinQuery kwArgs))) h2 with ⟨r, hr⟩
      exact ⟨r, hr, by simp [search_cmd, hsel, hne, hr],
        by simp [search_cmd, hsel, hne, hr, exitCode]⟩

/-- Witness for C7: a lookup miss raises the usage error naming the key
with exit 2; a search hit with the literal keyword `"beginning"` renders
with exit 0. -/
theorem C7_dispatcher_empty_vs_nonempty_witness :
    lookup_cmd [⟨str "Genesis", 1, 1, str "In the beginning"⟩]
        (str "verses.json") (str "Exodus 1:1") (str "plain") =
      .error (.usage (str "Exodus 1:1" ++ str " not found"))
    ∧ exitCode (lookup_cmd [⟨str "Genesis", 1, 1, str "In the beginning"⟩]
        (str "verses.json") (str "Exodus 1:1") (str "plain")) = 2
    ∧ (∃ r, search_cmd List.dedup reSubDefault (fun _ _ => [])
          [⟨str "Genesis", 1, 1, str "In the beginning"⟩] (str "verses.json")
          [str "beginning"] (str "plain") = .ok r
        ∧ exitCode (search_cmd List.dedup reSubDefault (fun _ _ => [])
          [⟨str "Genesis", 1, 1, str "In the beginning"⟩] (str "verses.json")
          [str "beginning"] (str "plain")) = 0) := by
  have hmiss := (C7_dispatcher_empty_vs_nonempty
    [⟨str "Genesis", 1, 1, str "In the beginning"⟩] (str "verses.json")
    (str "Exodus 1:1") (str "plain") [str "beginning"] List.dedup reSubDefault
    (fun _ _ => []) [] [⟨str "Genesis", 1, 1, str "In the beginning"⟩]
    reSubSpec_default pySet_dedup).1 (by decide)
  have hhit := (C7_dispatcher_empty_vs_nonempty
    [⟨str "Genesis", 1, 1, str "In the beginning"⟩] (str "verses.json")
    (str "Genesis 1:1") (str "plain") [str "beginning"] List.dedup reSubDefault
    (fun _ _ => []) [] [⟨str "Genesis", 1, 1, str "In the beginning"⟩]
    reSubSpec_default pySet_dedup).2 (by decide)
  have he := hmiss.1 rfl
  rcases hhit.2 (by decide) (Or.inl rfl) (by decide) with ⟨r, _, hcmd, hexit⟩
  exact ⟨he.1, he.2, ⟨r, hcmd, hexit⟩⟩

/-- Counterexample to C7 as stated: the verse text `"f(x"` contains the
keyword `"("` as a plain substring, so the search backend returns a
non-empty sequence; but plain rendering passes `"("` to `re.sub` as a regex
pattern, which fails to compile (`re.error`, unterminated group), and the
process dies with exit status 1 — nothing is rendered and the exit status
is not zero even though the backend result was non-empty. -/
theorem C7_dispatcher_counterexample :
    PySet List.dedup
    ∧ ReSubSpec reSubDefault
    ∧ selectedSearch (fun _ _ => []) [⟨str "B", 1, 1, str "f(x"⟩]
        (str "verses.json") (joinQuery [str "("]) = some [⟨str "B", 1, 1, str "f(x"⟩]
    ∧ search_cmd List.dedup reSubDefault (fun _ _ => []) [⟨str "B", 1, 1, str "f(x"⟩]
        (str "verses.json") [str "("] (str "plain") = .error .reError
    ∧ exitCode (search_cmd List.dedup reSubDefault (fun _ _ => [])
        [⟨str "B", 1, 1, str "f(x"⟩] (str "verses.json") [str "("] (str "plain")) = 1 :=
  ⟨pySet_dedup, reSubSpec_default, by decide, by decide, by decide⟩

/-- Claim C9: backend selection tests only the bare character-sequence
suffix of the filename — `json` selects the flat-file adapter (no dot
required), otherwise `sqlite` selects the indexed-store adapter, and any
other filename leaves `result` unassigned so the command dies with an
uncaught `NameError` (exit 1), not a Click argument-validation
(`UsageError`) failure. -/
theorem C9_backend_selection (src : List Verse) (fn key out query : List Char)
    (kwArgs : List (List Char)) (pset : List (List Char) → List (List Char))
    (reSub : List Char → Nat → List Char → Except Unit (List Char))
    (fts : List Verse → List Char → List Verse) :
    (endsWithL (str "json") fn = true →
      selectedLookup src fn key = some (lookup_json src key)
      ∧ selectedSearch fts src fn query = some (search_json src query))
    ∧ (endsWithL (str "json") fn = false → endsWithL (str "sqlite") fn = true →
      selectedLookup src fn key = some (lookup_sqlite src key)
      ∧ selectedSearch fts src fn query = some (fts src query))
    ∧ (endsWithL (str "json") fn = false → endsWithL (str "sqlite") fn = false →
      lookup_cmd src fn key out = .error .nameError
      ∧ search_cmd pset reSub fts src fn kwArgs out = .error .nameError
      ∧ (∀ m, lookup_cmd src fn key out ≠ .error (.usage m))
      ∧ exitCode (lookup_cmd src fn key out) = 1
      ∧ exitCode (search_cmd pset reSub fts src fn kwArgs out) = 1) := by
  refine ⟨?_, ?_, ?_⟩
  · intro hj
    exact ⟨by simp [selectedLookup, hj], by simp [selectedSearch, hj]⟩
  · intro hj hs
    exact ⟨by simp [selectedLookup, hj, hs], by simp [selectedSearch, hj, hs]⟩
  · intro hj hs
    have hl : lookup_cmd src fn key out = .error .nameError := by
      simp [lookup_cmd, selectedLookup, hj, hs]
    have hsr : search_cmd pset reSub fts src fn kwArgs out = .error .nameError := by
      simp [search_cmd, selectedSearch, hj, hs]
    refine ⟨hl, hsr, ?_, by simp [hl, exitCode], by simp [hsr, exitCode]⟩
    intro m hm
    rw [hl] at hm
    exact CmdError.noConfusion (Except.error.inj hm)

/-- Witness for C9: `"versesjson"` (no dot) selects the flat-file adapter;
`"verses.db"` selects nothing and dies with `NameError`, exit 1. -/
theorem C9_backend_selection_witness :
    selectedLookup [] (str "versesjson") (str "Genesis") =
      some (lookup_json [] (str "Genesis"))
    ∧ lookup_cmd [] (str "verses.db") (str "Genesis") (str "plain") =
      .error .nameError
    ∧ exitCode (lookup_cmd [] (str "verses.db") (str "Genesis") (str "plain")) = 1 := by
  have h1 := (C9_backend_selection [] (str "versesjson") (str "Genesis")
    (str "plain") (str "") [] List.dedup reSubDefault (fun _ _ => [])).1 (by decide)
  have h3 := (C9_backend_selection [] (str "verses.db") (str "Genesis")
    (str "plain") (str "") [] List.dedup reSubDefault (fun _ _ => [])).2.2
    (by decide) (by decide)
  exact ⟨h1.1, h3.1, h3.2.2.2.1⟩

end SwordQuery
